import Mathlib

/-!
Shallow embedding of `src/SOFA/sofa/utils/backend/modelcard.py`.

Python dictionaries are modelled as insertion-ordered association lists
(`List (κ × α)`); setting an existing key updates it in place, setting a
fresh key appends.  Exceptions (`IndexError`, `KeyError`, `TypeError`)
are modelled by `Option`: `none` means the Python code raises.  Numeric
log values are embedded as `Int` (Python `int`) and `ℚ` (Python `float`,
read as the decimal value it prints as); the code under study only
copies, compares and prints these values, never does float arithmetic.
-/

namespace Modelcard

/-- Values appearing in trainer log records and table cells: Python
`int`, `float`, `str` and `None`. -/
inductive LogVal where
  | int (n : Int)
  | float (q : ℚ)
  | str (s : String)
  | null
deriving DecidableEq, Repr

/-- A Python dict with string keys, as an insertion-ordered association list. -/
abbrev Record := List (String × LogVal)

/-- Python `d[k] = v`: update in place if the key exists, else append. -/
def dInsert {κ α : Type} [BEq κ] : List (κ × α) → κ → α → List (κ × α)
  | [], k, v => [(k, v)]
  | p :: rest, k, v => if p.1 == k then (k, v) :: rest else p :: dInsert rest k v

/-- Python `k in d`. -/
def hasKey (r : Record) (k : String) : Bool :=
  r.any (fun p => p.1 == k)

/-- Python `d.get(k)` / `d.pop(k, None)`'s returned value: the stored
value, or `None` when the key is absent. -/
def getValD (r : Record) (k : String) : LogVal :=
  match r.find? (fun p => p.1 == k) with
  | some p => p.2
  | none => LogVal.null

/-- Effect of Python `d.pop(k, ...)` on the dict: remove the key,
preserving the order of the remaining entries. -/
def removeKey (r : Record) (k : String) : Record :=
  r.filter (fun p => p.1 != k)

/-- Python dict lookup returning the value when present. -/
def lookupVal (r : Record) (k : String) : Option LogVal :=
  (r.find? (fun p => p.1 == k)).map (fun p => p.2)

/-- Option-valued map over a list, failing as soon as one element fails;
models a Python loop that may raise. -/
def pyMapList {α β : Type} (f : α → Option β) : List α → Option (List β)
  | [] => some []
  | a :: l =>
    match f a, pyMapList f l with
    | some b, some bs => some (b :: bs)
    | _, _ => none

/-- Python `s.startswith(pre)`. -/
def pyStartsWith (s pre : String) : Bool :=
  List.isPrefixOf pre.data s.data

/-- Python `s[n:]`: drop the first `n` characters. -/
def pyDrop (s : String) (n : ℕ) : String :=
  String.mk (s.data.drop n)

/-- Python `s.lower()` (ASCII, which covers every key this module
handles). -/
def pyToLower (s : String) : String :=
  String.mk (s.data.map Char.toLower)

/-- Python `s.replace(a, b)` for one-character patterns. -/
def pyReplaceChar (s : String) (a b : Char) : String :=
  String.mk (s.data.map (fun c => if c == a then b else c))

/-- Splitting a character list at every occurrence of `sep`. -/
def pySplitAux (sep : Char) : List Char → List Char → List (List Char)
  | [], acc => [acc.reverse]
  | c :: cs, acc =>
    if c == sep then acc.reverse :: pySplitAux sep cs []
    else pySplitAux sep cs (c :: acc)

/-- Python `s.split(sep)` for a one-character separator. -/
def pySplit (s : String) (sep : Char) : List String :=
  (pySplitAux sep s.data []).map String.mk

/-- Python `str.capitalize()`: first character upper-cased, the rest
lower-cased (ASCII, which covers every key this module handles). -/
def pyCapitalize (s : String) : String :=
  match s.data with
  | [] => ""
  | c :: cs => String.mk (c.toUpper :: cs.map Char.toLower)

/-- `" ".join(part.capitalize() for part in key.split("_"))` — the
humanization applied to final-result keys and Keras row keys. -/
def humanizeKey (k : String) : String :=
  String.intercalate " " ((pySplit k '_').map pyCapitalize)

/-- `" ".join(part.capitalize() for part in k.split("_")[1:])` — the
humanization applied to extra metric columns of an eval-table row
(the first `_`-token is dropped). -/
def humanizeTableKey (k : String) : String :=
  String.intercalate " " (((pySplit k '_').drop 1).map pyCapitalize)

/-- The `idx = 0; while idx < len(l) and not p(l[idx]): idx += 1` scan:
index of the first record satisfying `p`, or `l.length` if none does. -/
def findFirstIdx (p : Record → Bool) : List Record → Nat
  | [] => 0
  | r :: rs => if p r then 0 else findFirstIdx p rs + 1

/-- The `idx = len(l) - 1; while idx >= 0 and not p(l[idx]): idx -= 1`
scan: greatest index of a record satisfying `p`, or `-1` if none does. -/
def findLastIdxInt (p : Record → Bool) : List Record → Int
  | [] => -1
  | r :: rs =>
    let j := findLastIdxInt p rs
    if 0 ≤ j then j + 1 else if p r then 0 else -1

/-- Body of the eval-table row construction in `parse_log_history`
(source lines 539-554): pop the bookkeeping keys, seed the row with
`Training Loss`/`Epoch`/`Step`, then add `Validation Loss` and one
humanized column per remaining metric key. -/
def evalLineValues (training_loss : LogVal) (r : Record) : Record :=
  let metrics := removeKey r "total_flos"
  let epoch := getValD metrics "epoch"
  let metrics := removeKey metrics "epoch"
  let step := getValD metrics "step"
  let metrics := removeKey metrics "step"
  let metrics := removeKey metrics "eval_runtime"
  let metrics := removeKey metrics "eval_samples_per_second"
  let metrics := removeKey metrics "eval_steps_per_second"
  let values : Record := [("Training Loss", training_loss), ("Epoch", epoch), ("Step", step)]
  metrics.foldl (fun values p =>
    if p.1 == "eval_loss" then dInsert values "Validation Loss" p.2
    else dInsert values (humanizeTableKey p.1) p.2) values

/-- The `for i in range(idx)` loop of `parse_log_history`: track the
most recent `loss` value (initially the marker string `"No log"`) and
emit one row per record containing `eval_loss`. -/
def buildEvalLines (logs : List Record) : List Record :=
  (logs.foldl (fun (acc : LogVal × List Record) r =>
    let tl := if hasKey r "loss" then getValD r "loss" else acc.1
    if hasKey r "eval_loss" then (tl, acc.2 ++ [evalLineValues tl r]) else (tl, acc.2))
    (LogVal.str "No log", [])).2

/-- Final-result extraction of `parse_log_history` (source lines
561-567): strip the `eval_` prefix, drop the non-metric keys, humanize
the rest. -/
def finalEvalResults (r : Record) : Record :=
  r.foldl (fun acc p =>
    let key := if pyStartsWith p.1 "eval_" then pyDrop p.1 5 else p.1
    if key ∈ (["runtime", "samples_per_second", "steps_per_second", "epoch", "step"] : List String)
    then acc
    else dInsert acc (humanizeKey key) p.2) []

/-- The triple returned by `parse_log_history`; each component is `None`
in Python exactly when it is `none` here. -/
structure ParsedLog where
  train_log : Option Record
  lines : Option (List Record)
  eval_results : Option Record
deriving DecidableEq, Repr

/-- `parse_log_history` (source lines 512-570). -/
def parse_log_history (log : List Record) : ParsedLog :=
  let tIdx := findFirstIdx (fun r => hasKey r "train_runtime") log
  if tIdx = log.length then
    let eIdx := findLastIdxInt (fun r => hasKey r "eval_loss") log
    if 0 < eIdx then ⟨none, none, some (log.getD eIdx.toNat [])⟩
    else ⟨none, none, none⟩
  else
    -- tIdx < log.length in this branch, so the getD default is never used
    let train_log := log.getD tIdx []
    let lines := buildEvalLines (log.take tIdx)
    let eIdx := findLastIdxInt (fun r => hasKey r "eval_loss") log
    if 0 < eIdx then ⟨some train_log, some lines, some (finalEvalResults (log.getD eIdx.toNat []))⟩
    else ⟨some train_log, some lines, none⟩

/-- The `Optional[Union[str, List[str]]]` fields of `TrainingSummary`:
absent, a single string, or a Python list (whose elements may be `None`). -/
inductive PyStrs where
  | pnone
  | pstr (s : String)
  | plist (l : List (Option String))
deriving DecidableEq, Repr

/-- `_listify` (source lines 107-113). -/
def _listify : PyStrs → List (Option String)
  | .pnone => []
  | .pstr s => [some s]
  | .plist l => l

/-- `METRIC_TAGS` (source lines 93-104). -/
def METRIC_TAGS : List String :=
  ["accuracy", "bleu", "f1", "matthews_correlation", "pearsonr",
   "precision", "recall", "rouge", "sacrebleu", "spearmanr"]

/-- `key.lower().replace(" ", "_")`, the normal form a metric
display-name is matched against. -/
def normalizeMetricKey (k : String) : String :=
  pyReplaceChar (pyToLower k) ' ' '_'

/-- One iteration of the `infer_metric_tags_from_eval_results` loop
(source lines 132-136): record a recognized metric under its normalized
tag, special-case `rouge1`, drop everything else. -/
def metricTagStep (result : List (String × String)) (p : String × ℚ) :
    List (String × String) :=
  if normalizeMetricKey p.1 ∈ METRIC_TAGS then dInsert result (normalizeMetricKey p.1) p.1
  else if pyToLower p.1 == "rouge1" then dInsert result "rouge" p.1
  else result

/-- `infer_metric_tags_from_eval_results` (source lines 128-137).
`eval_results` is an `Optional[Dict[str, float]]`; only its keys are
inspected. -/
def infer_metric_tags_from_eval_results (eval_results : Option (List (String × ℚ))) :
    List (String × String) :=
  match eval_results with
  | none => []
  | some er => er.foldl metricTagStep []

/-- `TASK_TAG_TO_NAME_MAPPING` (source lines 75-90). -/
def TASK_TAG_TO_NAME_MAPPING : List (String × String) :=
  [("fill-mask", "Masked Language Modeling"),
   ("image-classification", "Image Classification"),
   ("image-segmentation", "Image Segmentation"),
   ("multiple-choice", "Multiple Choice"),
   ("object-detection", "Object Detection"),
   ("question-answering", "Question Answering"),
   ("summarization", "Summarization"),
   ("table-question-answering", "Table Question Answering"),
   ("text-classification", "Text Classification"),
   ("text-generation", "Causal Language Modeling"),
   ("text2text-generation", "Sequence-to-sequence Language Modeling"),
   ("token-classification", "Token Classification"),
   ("translation", "Translation"),
   ("zero-shot-classification", "Zero Shot Classification")]

/-- The `TrainingSummary` dataclass (source lines 166-180); only the
fields its methods read are carried. -/
structure TrainingSummary where
  model_name : String
  language : PyStrs := .pnone
  license : Option String := none
  tags : PyStrs := .pnone
  finetuned_from : Option String := none
  tasks : PyStrs := .pnone
  dataset : PyStrs := .pnone
  dataset_tags : PyStrs := .pnone
  dataset_args : PyStrs := .pnone
  eval_results : Option (List (String × ℚ)) := none
  eval_lines : Option (List Record) := none
  source : String := "trainer"
deriving DecidableEq, Repr

/-- The `task` sub-dict of a model-index result entry. -/
structure MITask where
  name : Option String
  type : String
deriving DecidableEq, Repr

/-- The `dataset` sub-dict of a model-index result entry; `args = none`
models the `"args"` key being absent. -/
structure MIDataset where
  name : Option String
  type : String
  args : Option String
deriving DecidableEq, Repr

/-- One element of the `metrics` list of a model-index result entry. -/
structure MIMetric where
  name : String
  type : String
  value : ℚ
deriving DecidableEq, Repr

/-- A result entry built for one (task, dataset) combination; a `none`
field models the corresponding key being absent from the dict. -/
structure MIEntry where
  task : Option MITask
  dataset : Option MIDataset
  metrics : Option (List MIMetric)
deriving DecidableEq, Repr

/-- The single model-index record `{"name": ..., "results": [...]}`. -/
structure ModelIndexRec where
  name : String
  results : List MIEntry
deriving DecidableEq, Repr

/-- A dict built by a Python dict comprehension: later duplicate keys
overwrite earlier ones, order of first insertion is kept. -/
def buildDict {κ α : Type} [BEq κ] (l : List (κ × α)) : List (κ × α) :=
  l.foldl (fun d p => dInsert d p.1 p.2) []

/-- The padding applied to `dataset_args` in `create_model_index`
(source lines 192-193): extend with `None` entries until it is at least
as long as `dataset_tags`. -/
def padDatasetArgs (args tags : List (Option String)) : List (Option String) :=
  if args.length < tags.length then args ++ List.replicate (tags.length - args.length) none
  else args

/-- The task mapping of `create_model_index` (source lines 197-199):
`{task: TASK_TAG_TO_NAME_MAPPING[task] for task in _listify(self.tasks)
if task in TASK_TAG_TO_NAME_MAPPING}`. -/
def taskMappingOf (s : TrainingSummary) : List (Option String × Option String) :=
  buildDict ((_listify s.tasks).filterMap (fun t =>
    match t with
    | some tag => (List.lookup tag TASK_TAG_TO_NAME_MAPPING).map (fun nm => (some tag, some nm))
    | none => none))

/-- The metrics list of a result entry (source lines 222-231): inner
`none` when `metric_mapping` is empty (then the `"metrics"` key is left
absent), else one entry per recognized metric with the value pulled out
of `eval_results` by display name; the outer `Option` models the
`KeyError`/`TypeError` of `self.eval_results[metric_name]`.  The list is
identical for every (task, dataset) combination. -/
def metricsListOf (eval_results : Option (List (String × ℚ)))
    (metric_mapping : List (String × String)) : Option (Option (List MIMetric)) :=
  if metric_mapping.length = 0 then some none
  else
    match eval_results with
    | none => none
    | some er =>
      (pyMapList (fun p => (List.lookup p.2 er).map (fun v => MIMetric.mk p.2 p.1 v))
        metric_mapping).map (fun ms => some ms)

/-- One loop iteration of `create_model_index` (source lines 212-231):
the result entry for one (task-tag, dataset-tag) pair, given the
dataset-args mapping and the shared metrics part. -/
def buildResultEntry (dataset_arg_mapping : List (Option String × Option String))
    (metricsPart : Option (Option (List MIMetric)))
    (td : (Option String × Option String) × (Option String × Option String)) :
    Option MIEntry :=
  let taskPart : Option MITask :=
    match td.1.1 with
    | some t => some ⟨td.1.2, t⟩
    | none => none
  match td.2.1 with
  | some dt =>
    match List.lookup (some dt) dataset_arg_mapping with
    | none => none
    | some arg => metricsPart.map (fun mp => MIEntry.mk taskPart (some ⟨td.2.2, dt, arg⟩) mp)
  | none => metricsPart.map (fun mp => MIEntry.mk taskPart none mp)

/-- The filter of source lines 233-237: a result entry is kept only if
it has all three of the `task`, `dataset` and `metrics` keys. -/
def keepComplete (r : MIEntry) : Option MIEntry :=
  if r.task.isSome && r.dataset.isSome && r.metrics.isSome then some r else none

/-- `TrainingSummary.create_model_index` (source lines 185-239).
`none` models an exception escaping the method (a `KeyError` from
`dataset_arg_mapping[ds_tag]` or `self.eval_results[metric_name]`, or
indexing into an absent `eval_results`). -/
def TrainingSummary.create_model_index (s : TrainingSummary)
    (metric_mapping : List (String × String)) : Option (List ModelIndexRec) :=
  let dataset_names := _listify s.dataset
  let dataset_tags := _listify s.dataset_tags
  let dataset_args := padDatasetArgs (_listify s.dataset_args) dataset_tags
  let dataset_mapping := buildDict (dataset_tags.zip dataset_names)
  let dataset_arg_mapping := buildDict (dataset_tags.zip dataset_args)
  let task_mapping := taskMappingOf s
  if task_mapping.length = 0 ∧ dataset_mapping.length = 0 then
    some [⟨s.model_name, []⟩]
  else
    let task_mapping := if task_mapping.length = 0 then [(none, none)] else task_mapping
    let dataset_mapping := if dataset_mapping.length = 0 then [(none, none)] else dataset_mapping
    let all_possibilities :=
      (task_mapping.map (fun t => dataset_mapping.map (fun d => (t, d)))).flatten
    match pyMapList
        (buildResultEntry dataset_arg_mapping (metricsListOf s.eval_results metric_mapping))
        all_possibilities with
    | none => none
    | some entries => some [⟨s.model_name, entries.filterMap keepComplete⟩]

/-- A value of the metadata mapping assembled by `create_metadata`:
either a list of strings or the model index. -/
inductive MetaVal where
  | strs (l : List String)
  | index (l : List ModelIndexRec)
deriving DecidableEq, Repr

/-- `_insert_values_as_list` (source lines 116-125): insert the key only
when the listified, `None`-filtered value list is non-empty. -/
def _insert_values_as_list (metadata : List (String × MetaVal)) (name : String)
    (values : PyStrs) : List (String × MetaVal) :=
  match values with
  | .pnone => metadata
  | .pstr s => dInsert metadata name (.strs [s])
  | .plist l =>
    let vs := l.filterMap id
    if vs.length = 0 then metadata else dInsert metadata name (.strs vs)

/-- `TrainingSummary.create_metadata` (source lines 241-252).  `none`
propagates an exception raised inside `create_model_index`. -/
def TrainingSummary.create_metadata (s : TrainingSummary) :
    Option (List (String × MetaVal)) :=
  let metric_mapping := infer_metric_tags_from_eval_results s.eval_results
  let metadata := _insert_values_as_list [] "language" s.language
  let metadata := _insert_values_as_list metadata "tags" s.tags
  let metadata := _insert_values_as_list metadata "datasets" s.dataset_tags
  let metadata := _insert_values_as_list metadata "metrics"
    (.plist (metric_mapping.map (fun p => some p.1)))
  match s.create_model_index metric_mapping with
  | none => none
  | some mi => some (dInsert metadata "model-index" (.index mi))

/-- The triple returned by `parse_keras_history` on success. -/
structure KerasParsed where
  logs : List (String × List LogVal)
  lines : List Record
  eval_results : Record
deriving DecidableEq, Repr

/-- `parse_keras_history` (source lines 480-509), on the
list-of-dicts input shape.  `none` models an exception: `logs[0]`
raises `IndexError` on an empty list, a missing key raises `KeyError`,
and `lines[-1]` raises `IndexError` when `lines` is empty. -/
def parse_keras_history (logs : List Record) : Option KerasParsed :=
  match logs with
  | [] => none
  | first :: _ =>
    let keys := first.map (fun p => p.1)
    match pyMapList (fun k => (pyMapList (fun d => lookupVal d k) logs).map (fun vs => (k, vs)))
        keys with
    | none => none
    | some inverted =>
      match List.lookup "epoch" inverted with
      | none => none
      | some epochs =>
        let lines := (List.range epochs.length).map (fun i =>
          -- every value list has length logs.length = epochs.length, so the
          -- getD default is never used
          let epoch_dict := inverted.map (fun p => (p.1, p.2.getD i LogVal.null))
          epoch_dict.foldl (fun values p =>
            let k := if pyStartsWith p.1 "val_" then "validation_" ++ pyDrop p.1 4
              else if p.1 ≠ "epoch" then "train_" ++ p.1 else p.1
            dInsert values (humanizeKey k) p.2) [])
        match lines.getLast? with
        | none => none
        | some er => some ⟨inverted, lines, er⟩

/-- Modelled from the spec: the `ParallelMode` enum lives in the
training-args module, which is not under `src/`; `modelcard.py` only
distinguishes `NOT_PARALLEL`, `NOT_DISTRIBUTED` and `DISTRIBUTED` and
otherwise uses the mode's raw `.value` string (spec 4.6: "label is
'multi-GPU' for the generic distributed case, otherwise the mode's raw
value"). -/
inductive ParallelMode where
  | not_parallel
  | not_distributed
  | distributed
  | other (v : String)
deriving DecidableEq, Repr

/-- The `.value` string of a `ParallelMode` member. -/
def ParallelMode.value : ParallelMode → String
  | .not_parallel => "not_parallel"
  | .not_distributed => "not_distributed"
  | .distributed => "distributed"
  | .other v => v

/-- The fields of `trainer.args` read by
`extract_hyperparameters_from_trainer` (source lines 629-675). -/
structure TrainerArgs where
  learning_rate : ℚ
  train_batch_size : ℕ
  eval_batch_size : ℕ
  seed : ℕ
  parallel_mode : ParallelMode
  world_size : ℕ
  gradient_accumulation_steps : ℕ
  adafactor : Bool
  adam_beta1 : ℚ
  adam_beta2 : ℚ
  adam_epsilon : ℚ
  lr_scheduler_type : String
  warmup_ratio : ℚ
  warmup_steps : ℕ
  max_steps : ℤ
  num_train_epochs : ℚ
  fp16 : Bool
  fp16_opt_level : String
  label_smoothing_factor : ℚ
deriving DecidableEq, Repr

/-- The parts of the trainer object the extractor reads. -/
structure Trainer where
  args : TrainerArgs
  use_amp : Bool
  use_apex : Bool
deriving DecidableEq, Repr

/-- A hyperparameter value; heterogeneous in Python.  The Adam optimizer
description string `f"Adam with betas=(b1,b2) and epsilon=eps"` is kept
structured, since its only content is the three embedded floats. -/
inductive HPVal where
  | nat (n : ℕ)
  | int (n : ℤ)
  | rat (q : ℚ)
  | str (s : String)
  | adam (beta1 beta2 epsilon : ℚ)
deriving DecidableEq, Repr

/-- `extract_hyperparameters_from_trainer` (source lines 629-675). -/
def extract_hyperparameters_from_trainer (t : Trainer) : List (String × HPVal) :=
  let h : List (String × HPVal) :=
    [("learning_rate", .rat t.args.learning_rate),
     ("train_batch_size", .nat t.args.train_batch_size),
     ("eval_batch_size", .nat t.args.eval_batch_size),
     ("seed", .nat t.args.seed)]
  let h := if t.args.parallel_mode ≠ ParallelMode.not_parallel ∧
      t.args.parallel_mode ≠ ParallelMode.not_distributed then
      dInsert h "distributed_type"
        (.str (if t.args.parallel_mode = ParallelMode.distributed then "multi-GPU"
          else t.args.parallel_mode.value))
    else h
  let h := if 1 < t.args.world_size then dInsert h "num_devices" (.nat t.args.world_size) else h
  let h := if 1 < t.args.gradient_accumulation_steps then
      dInsert h "gradient_accumulation_steps" (.nat t.args.gradient_accumulation_steps)
    else h
  let total_train_batch_size :=
    t.args.train_batch_size * t.args.world_size * t.args.gradient_accumulation_steps
  -- the dict entry "train_batch_size" compared against still holds
  -- trainer.args.train_batch_size at this point
  let h := if total_train_batch_size ≠ t.args.train_batch_size then
      dInsert h "total_train_batch_size" (.nat total_train_batch_size)
    else h
  let total_eval_batch_size := t.args.eval_batch_size * t.args.world_size
  let h := if total_eval_batch_size ≠ t.args.eval_batch_size then
      dInsert h "total_eval_batch_size" (.nat total_eval_batch_size)
    else h
  let h := if t.args.adafactor then dInsert h "optimizer" (.str "Adafactor")
    else dInsert h "optimizer" (.adam t.args.adam_beta1 t.args.adam_beta2 t.args.adam_epsilon)
  let h := dInsert h "lr_scheduler_type" (.str t.args.lr_scheduler_type)
  let h := if t.args.warmup_ratio ≠ 0 then
      dInsert h "lr_scheduler_warmup_ratio" (.rat t.args.warmup_ratio)
    else h
  let h := if t.args.warmup_steps ≠ 0 then
      dInsert h "lr_scheduler_warmup_steps" (.nat t.args.warmup_steps)
    else h
  let h := if t.args.max_steps ≠ -1 then dInsert h "training_steps" (.int t.args.max_steps)
    else dInsert h "num_epochs" (.rat t.args.num_train_epochs)
  let h := if t.args.fp16 then
      (if t.use_amp then dInsert h "mixed_precision_training" (.str "Native AMP")
       else if t.use_apex then
         dInsert h "mixed_precision_training" (.str ("Apex, opt level " ++ t.args.fp16_opt_level))
       else h)
    else h
  if t.args.label_smoothing_factor ≠ 0 then
    dInsert h "label_smoothing_factor" (.rat t.args.label_smoothing_factor)
  else h

/-- Round to the nearest integer, ties to even — the rounding of
Python's fixed-point float formatting. -/
def roundHalfEven (q : ℚ) : ℤ :=
  let f := q.floor
  let r := q - f
  if r < 1/2 then f else if 1/2 < r then f + 1 else if f % 2 = 0 then f else f + 1

/-- Decimal digits of the fractional part of `q ∈ [0, 1)`, with fuel;
the floats this module prints have short terminating expansions, well
inside the fuel. -/
def decimalFracDigits : ℕ → ℚ → List ℕ
  | 0, _ => []
  | fuel + 1, q =>
    if q = 0 then []
    else
      let q10 := q * 10
      q10.floor.toNat :: decimalFracDigits fuel (q10 - q10.floor)

/-- Left-pad a digit string with zeros to the given width. -/
def padLeftZeros (s : String) (n : ℕ) : String :=
  String.mk (List.replicate (n - s.length) '0') ++ s

/-- `f"{v:.4f}"`: fixed-point rendering with four decimals. -/
def fixedFour (q : ℚ) : String :=
  let scaled := roundHalfEven (q * 10000)
  let sign := if scaled < 0 then "-" else ""
  let a := scaled.natAbs
  sign ++ toString (a / 10000) ++ "." ++ padLeftZeros (toString (a % 10000)) 4

/-- Python `str()` of a float given as the decimal value it prints as:
integer part, a dot, and the fractional digits (`"1.0"` for a whole
float). -/
def floatStr (q : ℚ) : String :=
  let sign := if q < 0 then "-" else ""
  let a := |q|
  let frac := decimalFracDigits 64 (a - a.floor)
  let fracStr := if frac = [] then "0" else String.join (frac.map (fun d => toString d))
  sign ++ toString a.floor.toNat ++ "." ++ fracStr

/-- `_maybe_round` (source lines 586-589) at its default `decimals=4`:
a float whose printed fractional part exceeds four digits is fixed at
four decimals; everything else passes through `str()`. -/
def _maybe_round (v : LogVal) : String :=
  match v with
  | .float q =>
    let s := floatStr q
    match pySplit s '.' with
    | [_, fracPart] => if 4 < fracPart.length then fixedFour q else s
    | _ => s
  | .int n => toString n
  | .str s => s
  | .null => "None"

/-- `_regular_table_line` (source lines 592-594):
`f"| {v}" + " " * (w - len(v) + 1)` per column, then `"|\n"`; a
negative Python repeat count yields the empty string. -/
def _regular_table_line (values : List String) (col_widths : List ℕ) : String :=
  String.join ((values.zip col_widths).map (fun p =>
    "| " ++ p.1 ++ String.mk (List.replicate ((p.2 : ℤ) - p.1.length + 1).toNat ' ')))
    ++ "|\n"

/-- `_second_table_line` (source lines 597-599). -/
def _second_table_line (col_widths : List ℕ) : String :=
  String.join (col_widths.map (fun w => "|:" ++ String.mk (List.replicate w '-') ++ ":"))
    ++ "|\n"

/-- `col_widths[key] < n` check-and-assign of `make_markdown_table`;
`none` models the `KeyError` Python raises when `key` was not a key of
the first row. -/
def updateWidth (ws : List (String × ℕ)) (k : String) (n : ℕ) :
    Option (List (String × ℕ)) :=
  match ws with
  | [] => none
  | p :: rest =>
    if p.1 == k then some ((p.1, if p.2 < n then n else p.2) :: rest)
    else (updateWidth rest k n).map (fun rest2 => p :: rest2)

/-- Width pass over one row. -/
def lineWidths (ws : List (String × ℕ)) : Record → Option (List (String × ℕ))
  | [] => some ws
  | p :: rest =>
    match updateWidth ws p.1 (_maybe_round p.2).length with
    | none => none
    | some ws2 => lineWidths ws2 rest

/-- Width pass over all rows. -/
def computeWidths (ws : List (String × ℕ)) : List Record → Option (List (String × ℕ))
  | [] => some ws
  | line :: rest =>
    match lineWidths ws line with
    | none => none
    | some ws2 => computeWidths ws2 rest

/-- `make_markdown_table` (source lines 602-618).  The argument is
`Option` because the Python function is called with a possibly-`None`
`eval_lines`; the result is `none` when the width pass raises
`KeyError` (a later row holding a key the first row lacks). -/
def make_markdown_table (lines : Option (List Record)) : Option String :=
  match lines with
  | none => some ""
  | some [] => some ""
  | some (l0 :: rest) =>
    let init := l0.map (fun p => (p.1, p.1.length))
    match computeWidths init (l0 :: rest) with
    | none => none
    | some ws =>
      let widths := ws.map (fun p => p.2)
      let table := _regular_table_line (l0.map (fun p => p.1)) widths
      let table := table ++ _second_table_line widths
      some (table ++ String.join ((l0 :: rest).map (fun line =>
        _regular_table_line (line.map (fun p => _maybe_round p.2)) widths)))

/-- Python `k in d` for an arbitrary key type. -/
def dHasKey {κ α : Type} [BEq κ] (d : List (κ × α)) (k : κ) : Bool :=
  d.any (fun p => p.1 == k)

/-- Kernel-reducible rational literals for the concrete instances
(`Rat` division does not reduce under `decide`, its constructor does). -/
def qHalf : ℚ := ⟨1, 2, by decide, by decide⟩

/-- The rational 3/10, in constructor form. -/
def qPointThree : ℚ := ⟨3, 10, by decide, by decide⟩

/-- The rational 9/10, in constructor form. -/
def qNineTenths : ℚ := ⟨9, 10, by decide, by decide⟩

/-- The log history of the spec's log-parsing example:
`[{"loss": 0.5}, {"eval_loss": 0.3, "epoch": 1, "step": 10}]`. -/
def exampleLogHistory : List Record :=
  [[("loss", LogVal.float qHalf)],
   [("eval_loss", LogVal.float qPointThree), ("epoch", LogVal.int 1), ("step", LogVal.int 10)]]

/-- The second record of `exampleLogHistory`. -/
def exampleEvalRecord : Record :=
  [("eval_loss", LogVal.float qPointThree), ("epoch", LogVal.int 1), ("step", LogVal.int 10)]

/-- A terminal aggregate-statistics record `{"train_runtime": 100.0}`. -/
def exampleTrainRecord : Record := [("train_runtime", LogVal.float 100)]

/-- The example history terminated by a training-runtime record. -/
def exampleTerminatedLog : List Record := exampleLogHistory ++ [exampleTrainRecord]

/-- The table row the terminated example produces. -/
def exampleEvalRow : Record :=
  [("Training Loss", LogVal.float qHalf), ("Epoch", LogVal.int 1),
   ("Step", LogVal.int 10), ("Validation Loss", LogVal.float qPointThree)]

/-- A log history whose only record is a lone evaluation record at index 0. -/
def loneEvalLog : List Record := [[("eval_loss", LogVal.float qPointThree)]]

/-- A log history with a filler record followed by an evaluation record. -/
def fillerEvalLog : List Record :=
  [[("x", LogVal.int 1)], [("eval_loss", LogVal.float qPointThree)]]

/-- A summary with every optional field absent. -/
def bareSummary : TrainingSummary := { model_name := "model" }

/-- A summary with a recognized task, a dataset tag and one recognized metric. -/
def sampleSummary : TrainingSummary :=
  { model_name := "model"
    tasks := .pstr "text-classification"
    dataset := .pstr "SQuAD"
    dataset_tags := .pstr "squad"
    eval_results := some [("Accuracy", qNineTenths)] }

/-- The surviving model-index result entry of `sampleSummary`. -/
def sampleEntry : MIEntry :=
  { task := some { name := some "Text Classification", type := "text-classification" }
    dataset := some { name := some "SQuAD", type := "squad", args := none }
    metrics := some [{ name := "Accuracy", type := "accuracy", value := qNineTenths }] }

/-- A single-process trainer: world size 1, no gradient accumulation. -/
def sampleTrainer : Trainer :=
  { args := { learning_rate := ⟨1, 50000, by decide, by decide⟩
              train_batch_size := 8
              eval_batch_size := 8
              seed := 42
              parallel_mode := .not_distributed
              world_size := 1
              gradient_accumulation_steps := 1
              adafactor := false
              adam_beta1 := qNineTenths
              adam_beta2 := ⟨999, 1000, by decide, by decide⟩
              adam_epsilon := ⟨1, 100000000, by decide, by decide⟩
              lr_scheduler_type := "linear"
              warmup_ratio := 0
              warmup_steps := 0
              max_steps := -1
              num_train_epochs := 3
              fp16 := false
              fp16_opt_level := "O1"
              label_smoothing_factor := 0 }
    use_amp := false
    use_apex := false }

/-- The same trainer distributed over two devices. -/
def sampleDistributedTrainer : Trainer :=
  { sampleTrainer with
    args := { sampleTrainer.args with
              world_size := 2
              parallel_mode := .distributed } }

/-! Helper lemmas about the embedding's primitives. -/

theorem neg_one_le_findLastIdxInt (p : Record → Bool) (l : List Record) :
    -1 ≤ findLastIdxInt p l := by
  induction l with
  | nil => simp [findLastIdxInt]
  | cons r rs ih =>
    simp only [findLastIdxInt]
    split
    · omega
    · split <;> omega

theorem findLastIdxInt_lt_length (p : Record → Bool) (l : List Record) :
    findLastIdxInt p l < (l.length : ℤ) := by
  induction l with
  | nil => simp [findLastIdxInt]
  | cons r rs ih =>
    simp only [findLastIdxInt, List.length_cons]
    split
    · push_cast; omega
    · split <;> (push_cast; omega)

theorem findLastIdxInt_getD (p : Record → Bool) (l : List Record)
    (h : 0 ≤ findLastIdxInt p l) :
    p (l.getD (findLastIdxInt p l).toNat []) = true := by
  induction l with
  | nil => simp [findLastIdxInt] at h
  | cons r rs ih =>
    simp only [findLastIdxInt] at h ⊢
    by_cases hj : 0 ≤ findLastIdxInt p rs
    · rw [if_pos hj] at h ⊢
      have h1 : (findLastIdxInt p rs + 1).toNat = (findLastIdxInt p rs).toNat + 1 := by omega
      rw [h1, List.getD_cons_succ]
      exact ih hj
    · rw [if_neg hj] at h ⊢
      by_cases hp : p r = true
      · simp [hp]
      · simp [hp] at h

theorem le_findLastIdxInt (p : Record → Bool) (l : List Record) (i : ℕ)
    (hi : i < l.length) (hp : p (l.getD i []) = true) :
    (i : ℤ) ≤ findLastIdxInt p l := by
  induction l generalizing i with
  | nil => simp at hi
  | cons r rs ih =>
    simp only [findLastIdxInt]
    cases i with
    | zero =>
      by_cases hj : 0 ≤ findLastIdxInt p rs
      · rw [if_pos hj]; omega
      · rw [if_neg hj]
        rw [List.getD_cons_zero] at hp
        simp [hp]
    | succ k =>
      have hk : k < rs.length := by simpa using hi
      have hpk : p (rs.getD k []) = true := by
        rw [List.getD_cons_succ] at hp; exact hp
      have h2 := ih k hk hpk
      have hj : 0 ≤ findLastIdxInt p rs := le_trans (by omega) h2
      rw [if_pos hj]
      push_cast
      omega

theorem findFirstIdx_eq_length_iff (p : Record → Bool) (l : List Record) :
    findFirstIdx p l = l.length ↔ ∀ r ∈ l, p r = false := by
  induction l with
  | nil => simp [findFirstIdx]
  | cons r rs ih =>
    simp only [findFirstIdx, List.length_cons, List.mem_cons]
    by_cases hp : p r = true
    · rw [if_pos hp]
      constructor
      · intro h; omega
      · intro h
        have := h r (Or.inl rfl)
        rw [hp] at this
        cases this
    · rw [if_neg hp]
      simp only [Nat.add_right_cancel_iff, ih]
      constructor
      · intro h x hx
        rcases hx with hx | hx
        · subst hx; exact Bool.eq_false_iff.mpr hp
        · exact h x hx
      · intro h x hx
        exact h x (Or.inr hx)

theorem mem_dInsert {κ α : Type} [BEq κ] {d : List (κ × α)} {k : κ} {v : α} {p : κ × α}
    (h : p ∈ dInsert d k v) : p ∈ d ∨ p = (k, v) := by
  induction d with
  | nil =>
    simp [dInsert] at h
    simp [h]
  | cons q rest ih =>
    simp only [dInsert] at h
    by_cases hq : (q.1 == k) = true
    · rw [if_pos hq] at h
      rcases List.mem_cons.mp h with h1 | h1
      · right; exact h1
      · left; exact List.mem_cons_of_mem _ h1
    · rw [if_neg hq] at h
      rcases List.mem_cons.mp h with h1 | h1
      · left; simp [h1]
      · rcases ih h1 with h2 | h2
        · left; exact List.mem_cons_of_mem _ h2
        · right; exact h2

theorem dHasKey_dInsert_iff {κ α : Type} [BEq κ] [LawfulBEq κ]
    (d : List (κ × α)) (k k2 : κ) (v : α) :
    dHasKey (dInsert d k v) k2 = true ↔ (k2 = k ∨ dHasKey d k2 = true) := by
  induction d with
  | nil =>
    simp only [dHasKey, dInsert, List.any_cons, List.any_nil, Bool.or_false, beq_iff_eq]
    constructor
    · intro h; left; exact h.symm
    · rintro (h | h)
      · exact h.symm
      · simp at h
  | cons q rest ih =>
    simp only [dInsert]
    by_cases hq : (q.1 == k) = true
    · rw [if_pos hq]
      have hqk : q.1 = k := by simpa using hq
      simp only [dHasKey, List.any_cons, Bool.or_eq_true, beq_iff_eq, hqk]
      constructor
      · rintro (h | h)
        · left; exact h.symm
        · right; right; exact h
      · rintro (h | h | h)
        · left; exact h.symm
        · left; exact h
        · right; exact h
    · rw [if_neg hq]
      simp only [dHasKey, List.any_cons, Bool.or_eq_true] at ih ⊢
      rw [ih]
      tauto

theorem pyMapList_length {α β : Type} (f : α → Option β) :
    ∀ {l : List α} {out : List β}, pyMapList f l = some out → out.length = l.length := by
  intro l
  induction l with
  | nil => intro out h; simp [pyMapList] at h; simp [← h]
  | cons a rest ih =>
    intro out h
    simp only [pyMapList] at h
    cases hfa : f a with
    | none => rw [hfa] at h; cases h
    | some b =>
      rw [hfa] at h
      cases hrest : pyMapList f rest with
      | none => rw [hrest] at h; cases h
      | some bs =>
        rw [hrest] at h
        cases h
        simp [ih hrest]

theorem pyMapList_mem {α β : Type} (f : α → Option β) :
    ∀ {l : List α} {out : List β}, pyMapList f l = some out →
      ∀ b ∈ out, ∃ a ∈ l, f a = some b := by
  intro l
  induction l with
  | nil =>
    intro out h b hb
    simp [pyMapList] at h
    subst h
    cases hb
  | cons a rest ih =>
    intro out h b hb
    simp only [pyMapList] at h
    cases hfa : f a with
    | none => rw [hfa] at h; cases h
    | some c =>
      rw [hfa] at h
      cases hrest : pyMapList f rest with
      | none => rw [hrest] at h; cases h
      | some bs =>
        rw [hrest] at h
        cases h
        rcases List.mem_cons.mp hb with hb1 | hb1
        · exact ⟨a, List.mem_cons_self a rest, by rw [hfa, hb1]⟩
        · rcases ih hrest b hb1 with ⟨a2, ha2, hfa2⟩
          exact ⟨a2, List.mem_cons_of_mem _ ha2, hfa2⟩

theorem pyMapList_eq_map {α β : Type} (f : α → Option β) (g : α → β) :
    ∀ {l : List α}, (∀ a ∈ l, f a = some (g a)) → pyMapList f l = some (l.map g) := by
  intro l
  induction l with
  | nil => intro _; simp [pyMapList]
  | cons a rest ih =>
    intro h
    simp only [pyMapList, List.map_cons]
    rw [h a (List.mem_cons_self a rest), ih (fun x hx => h x (List.mem_cons_of_mem _ hx))]

theorem getD_mem_of_lt {l : List Record} {j : ℕ} (h : j < l.length) :
    l.getD j [] ∈ l := by
  rw [List.getD_eq_getElem l [] h]
  exact List.getElem_mem h

theorem findLastIdxInt_eq_of_last (p : Record → Bool) (log : List Record) (i : ℕ)
    (hi : i < log.length) (hp : p (log.getD i []) = true)
    (hmax : ∀ j, j < log.length → i < j → p (log.getD j []) = false) :
    findLastIdxInt p log = (i : ℤ) := by
  have h1 := le_findLastIdxInt p log i hi hp
  have h2 := findLastIdxInt_lt_length p log
  by_contra hne
  have h3 : (i : ℤ) < findLastIdxInt p log := lt_of_le_of_ne h1 (Ne.symm hne)
  have h0 : 0 ≤ findLastIdxInt p log := le_trans (by omega) h1
  have h4 := findLastIdxInt_getD p log h0
  have h5 := hmax (findLastIdxInt p log).toNat (by omega) (by omega)
  rw [h5] at h4
  cases h4

theorem findLastIdxInt_nonpos (p : Record → Bool) (log : List Record)
    (h : ∀ j, j < log.length → 0 < j → p (log.getD j []) = false) :
    findLastIdxInt p log ≤ 0 := by
  by_contra hlt
  have h0 : 0 ≤ findLastIdxInt p log := by omega
  have h2 := findLastIdxInt_lt_length p log
  have h4 := findLastIdxInt_getD p log h0
  have h5 := h (findLastIdxInt p log).toNat (by omega) (by omega)
  rw [h5] at h4
  cases h4

/-- Core characterization of `parse_log_history` returning the
all-`None` triple: no record has `train_runtime` and no record at a
positive index has `eval_loss`. -/
theorem parse_log_history_eq_none_iff (log : List Record) :
    parse_log_history log = ⟨none, none, none⟩ ↔
      (∀ r ∈ log, hasKey r "train_runtime" = false) ∧
      (∀ j, j < log.length → 0 < j → hasKey (log.getD j []) "eval_loss" = false) := by
  constructor
  · intro h
    simp only [parse_log_history] at h
    by_cases ht : findFirstIdx (fun r => hasKey r "train_runtime") log = log.length
    · rw [if_pos ht] at h
      refine ⟨(findFirstIdx_eq_length_iff _ _).mp ht, ?_⟩
      intro j hj hj0
      by_contra hkey
      have hkey2 : hasKey (log.getD j []) "eval_loss" = true := by
        cases hk : hasKey (log.getD j []) "eval_loss"
        · exact absurd hk hkey
        · rfl
      have hle := le_findLastIdxInt (fun r => hasKey r "eval_loss") log j hj hkey2
      have hpos : 0 < findLastIdxInt (fun r => hasKey r "eval_loss") log := by omega
      rw [if_pos hpos] at h
      cases h
    · rw [if_neg ht] at h
      by_cases he : 0 < findLastIdxInt (fun r => hasKey r "eval_loss") log
      · rw [if_pos he] at h; cases h
      · rw [if_neg he] at h; cases h
  · rintro ⟨ht, he⟩
    have ht2 : findFirstIdx (fun r => hasKey r "train_runtime") log = log.length :=
      (findFirstIdx_eq_length_iff _ _).mpr ht
    have he2 := findLastIdxInt_nonpos (fun r => hasKey r "eval_loss") log he
    simp only [parse_log_history]
    rw [if_pos ht2, if_neg (by omega)]

/-! Claim theorems. -/

/-- C1 (counterexample): on the log history
`[{"loss": 0.5}, {"eval_loss": 0.3, "epoch": 1, "step": 10}]` the claim
fails: `parse_log_history` returns no `eval_lines` table at all (the
history has no training-runtime record, so the evaluation-only fallback
runs), and its final result is not the humanized mapping
`{"Loss": 0.3}`. -/
theorem claim1_counterexample :
    (parse_log_history exampleLogHistory).lines = none ∧
    (parse_log_history exampleLogHistory).eval_results ≠
      some [("Loss", LogVal.float qPointThree)] := by
  decide

/-- C1 (amended): on the example history itself `parse_log_history`
returns no table and the raw last evaluation record with its keys
untouched; the claimed table row `{Training Loss: 0.5, Epoch: 1,
Step: 10, Validation Loss: 0.3}` and final mapping `{"Loss": 0.3}` are
produced once a `train_runtime` record terminates the history. -/
theorem claim1_amended_thm :
    parse_log_history exampleLogHistory = ⟨none, none, some exampleEvalRecord⟩ ∧
    parse_log_history exampleTerminatedLog =
      ⟨some exampleTrainRecord, some [exampleEvalRow],
        some [("Loss", LogVal.float qPointThree)]⟩ := by
  decide

/-- C2 (counterexample): a history consisting of a single evaluation
record contains an evaluation-loss key, yet `parse_log_history` returns
nothing at all (the final `idx > 0` test rejects index 0), refuting
"returns nothing at all exactly when no record contains an
evaluation-loss key". -/
theorem claim2_counterexample :
    parse_log_history loneEvalLog = ⟨none, none, none⟩ ∧
    hasKey [("eval_loss", LogVal.float qPointThree)] "eval_loss" = true := by
  decide

/-- C2 (amended): the final evaluation result comes from the last
record containing `eval_loss`, provided that record's index is
positive.  When no record holds `train_runtime` the raw record is
returned unchanged (no key exclusion or humanization, and no table);
when some record holds `train_runtime` the result is the
excluded-and-humanized `finalEvalResults` of that record; and the
parser returns nothing at all exactly when no record holds
`train_runtime` and no record at a positive index holds `eval_loss`. -/
theorem claim2_amended_thm (log : List Record) :
    ((∀ r ∈ log, hasKey r "train_runtime" = false) →
      ∀ i, i < log.length → hasKey (log.getD i []) "eval_loss" = true →
        (∀ j, j < log.length → i < j → hasKey (log.getD j []) "eval_loss" = false) →
        0 < i →
        parse_log_history log = ⟨none, none, some (log.getD i [])⟩) ∧
    ((∃ r ∈ log, hasKey r "train_runtime" = true) →
      ∀ i, i < log.length → hasKey (log.getD i []) "eval_loss" = true →
        (∀ j, j < log.length → i < j → hasKey (log.getD j []) "eval_loss" = false) →
        0 < i →
        (parse_log_history log).eval_results = some (finalEvalResults (log.getD i []))) ∧
    (parse_log_history log = ⟨none, none, none⟩ ↔
      (∀ r ∈ log, hasKey r "train_runtime" = false) ∧
      (∀ j, j < log.length → 0 < j → hasKey (log.getD j []) "eval_loss" = false)) := by
  refine ⟨?_, ?_, parse_log_history_eq_none_iff log⟩
  · intro hnt i hi hp hmax hpos
    have ht : findFirstIdx (fun r => hasKey r "train_runtime") log = log.length :=
      (findFirstIdx_eq_length_iff _ _).mpr hnt
    have he := findLastIdxInt_eq_of_last (fun r => hasKey r "eval_loss") log i hi hp hmax
    simp only [parse_log_history]
    rw [if_pos ht, he, if_pos (by exact_mod_cast hpos)]
    simp
  · intro hst i hi hp hmax hpos
    have ht : findFirstIdx (fun r => hasKey r "train_runtime") log ≠ log.length := by
      intro hcontra
      have hall := (findFirstIdx_eq_length_iff _ _).mp hcontra
      rcases hst with ⟨r, hr, hkey⟩
      rw [hall r hr] at hkey
      cases hkey
    have he := findLastIdxInt_eq_of_last (fun r => hasKey r "eval_loss") log i hi hp hmax
    simp only [parse_log_history]
    rw [if_neg ht, he, if_pos (by exact_mod_cast hpos)]
    simp

/-- C2 (witness): the amended theorem applied to the two-record
evaluation-only history and to the terminated example history. -/
theorem claim2_witness :
    parse_log_history fillerEvalLog = ⟨none, none, some (fillerEvalLog.getD 1 [])⟩ ∧
    (parse_log_history exampleTerminatedLog).eval_results =
      some (finalEvalResults (exampleTerminatedLog.getD 1 [])) :=
  ⟨(claim2_amended_thm fillerEvalLog).1 (by decide) 1 (by decide) (by decide)
      (by decide) (by decide),
   (claim2_amended_thm exampleTerminatedLog).2.1 (by decide) 1 (by decide) (by decide)
      (by decide) (by decide)⟩

/-- C3 (counterexample): on the empty log sequence `parse_keras_history`
does not return an empty result — it raises (`logs[0]` is an
`IndexError`), modelled here by `none`. -/
theorem claim3_counterexample : parse_keras_history [] = none := rfl

/-- C3 (amended): `parse_log_history` returns the all-`None` triple on
the empty sequence and on any sequence with no qualifying record,
without raising; `parse_keras_history`, however, raises `IndexError` on
the empty list instead of returning an empty result. -/
theorem claim3_amended_thm :
    (∀ log : List Record,
      (∀ r ∈ log, hasKey r "train_runtime" = false ∧ hasKey r "eval_loss" = false) →
      parse_log_history log = ⟨none, none, none⟩) ∧
    parse_log_history [] = ⟨none, none, none⟩ ∧
    parse_keras_history [] = none := by
  refine ⟨?_, by decide, rfl⟩
  intro log h
  refine (parse_log_history_eq_none_iff log).mpr ⟨fun r hr => (h r hr).1, ?_⟩
  intro j hj _
  exact (h _ (getD_mem_of_lt hj)).2

/-- C3 (witness): the amended theorem applied to a one-record history
with neither qualifying key. -/
theorem claim3_witness :
    parse_log_history [[("a", LogVal.int 1)]] = ⟨none, none, none⟩ :=
  claim3_amended_thm.1 [[("a", LogVal.int 1)]] (by decide)

/-- The dataset mapping is empty whenever the listified dataset tags
are, and then the empty-results early return fires for an empty task
mapping as well. -/
theorem create_model_index_of_empty (s : TrainingSummary) (mm : List (String × String))
    (h1 : taskMappingOf s = []) (h2 : _listify s.dataset_tags = []) :
    s.create_model_index mm = some [⟨s.model_name, []⟩] := by
  simp [TrainingSummary.create_model_index, h1, h2, buildDict]

theorem metricsListOf_inner_nonempty (er : Option (List (String × ℚ)))
    (mm : List (String × String)) (ms : List MIMetric)
    (h : metricsListOf er mm = some (some ms)) : ms ≠ [] := by
  simp only [metricsListOf] at h
  by_cases h0 : mm.length = 0
  · rw [if_pos h0] at h
    injection h with h
    cases h
  · rw [if_neg h0] at h
    cases her : er with
    | none => rw [her] at h; cases h
    | some l =>
      rw [her] at h
      rcases Option.map_eq_some'.mp h with ⟨ms2, hms2, hms3⟩
      injection hms3 with hms3
      subst hms3
      have hlen := pyMapList_length _ hms2
      intro hnil
      rw [hnil] at hlen
      simp at hlen
      omega

theorem buildResultEntry_metrics (dam : List (Option String × Option String))
    (mp0 : Option (Option (List MIMetric)))
    (td : (Option String × Option String) × (Option String × Option String))
    (r : MIEntry) (h : buildResultEntry dam mp0 td = some r) :
    mp0 = some r.metrics := by
  simp only [buildResultEntry] at h
  rcases td with ⟨⟨tt, tn⟩, ⟨dt, dn⟩⟩
  cases dt with
  | some d =>
    simp only at h
    cases hl : List.lookup (some d) dam with
    | none => rw [hl] at h; cases h
    | some arg =>
      rw [hl] at h
      rcases Option.map_eq_some'.mp h with ⟨mp, hmp, hr⟩
      subst hr
      simp [hmp]
  | none =>
    simp only at h
    rcases Option.map_eq_some'.mp h with ⟨mp, hmp, hr⟩
    subst hr
    simp [hmp]

/-- C5: every result entry kept by `create_model_index` carries a task,
a dataset, and a non-empty metrics list; partial entries are dropped. -/
theorem claim5_thm (s : TrainingSummary) (mm : List (String × String))
    (out : List ModelIndexRec) (h : s.create_model_index mm = some out) :
    ∀ mi ∈ out, ∀ r ∈ mi.results,
      r.task.isSome = true ∧ r.dataset.isSome = true ∧
      ∃ ms, r.metrics = some ms ∧ ms ≠ [] := by
  intro mi hmi r hr
  simp only [TrainingSummary.create_model_index] at h
  split at h
  · injection h with h
    subst h
    rcases List.mem_singleton.mp hmi with rfl
    cases hr
  · split at h
    · cases h
    · rename_i entries hentries
      injection h with h
      subst h
      rcases List.mem_singleton.mp hmi with rfl
      simp only at hr
      rcases List.mem_filterMap.mp hr with ⟨e, he, hkeep⟩
      simp only [keepComplete] at hkeep
      split at hkeep
      · injection hkeep with hkeep
        subst hkeep
        rename_i hcond
        have hcond2 : (e.task.isSome = true ∧ e.dataset.isSome = true) ∧
            e.metrics.isSome = true := by simpa using hcond
        rcases hcond2 with ⟨⟨htask, hds⟩, hmet⟩
        refine ⟨htask, hds, ?_⟩
        rcases pyMapList_mem _ hentries e he with ⟨td, _, hbuild⟩
        have hmp := buildResultEntry_metrics _ _ _ _ hbuild
        rcases Option.isSome_iff_exists.mp hmet with ⟨ms, hms⟩
        refine ⟨ms, hms, ?_⟩
        apply metricsListOf_inner_nonempty s.eval_results mm ms
        rw [hmp, hms]
      · cases hkeep

/-- C5 (witness): the theorem applied to a summary with one recognized
task, one dataset tag and one recognized metric, whose single result
entry survives the filter. -/
theorem claim5_witness :
    sampleEntry.task.isSome = true ∧ sampleEntry.dataset.isSome = true ∧
    ∃ ms, sampleEntry.metrics = some ms ∧ ms ≠ [] :=
  claim5_thm sampleSummary [("accuracy", "Accuracy")] [⟨"model", [sampleEntry]⟩]
    (by decide) ⟨"model", [sampleEntry]⟩ (by decide) sampleEntry (by decide)

/-- C9: with zero recognized tasks and zero dataset tags,
`create_model_index` returns the single record with the model name and
an empty results list. -/
theorem claim9_thm (s : TrainingSummary) (mm : List (String × String))
    (h1 : taskMappingOf s = []) (h2 : _listify s.dataset_tags = []) :
    s.create_model_index mm = some [⟨s.model_name, []⟩] :=
  create_model_index_of_empty s mm h1 h2

/-- C9 (witness): the theorem applied to the bare summary. -/
theorem claim9_witness :
    bareSummary.create_model_index [("accuracy", "Accuracy")] =
      some [⟨bareSummary.model_name, []⟩] :=
  claim9_thm bareSummary [("accuracy", "Accuracy")] (by decide) (by decide)

/-- C8: the padded `dataset_args` is never shorter than `dataset_tags`,
so zipping pairs every dataset tag with a (possibly absent) argument. -/
theorem claim8_thm (args tags : List (Option String)) :
    tags.length ≤ (padDatasetArgs args tags).length ∧
    (tags.zip (padDatasetArgs args tags)).length = tags.length := by
  unfold padDatasetArgs
  by_cases h : args.length < tags.length
  · rw [if_pos h]
    constructor
    · simp only [List.length_append, List.length_replicate]
      omega
    · simp only [List.length_zip, List.length_append, List.length_replicate]
      omega
  · rw [if_neg h]
    constructor
    · omega
    · simp only [List.length_zip]
      omega

/-- With an empty metric mapping and no dataset tags every enumerated
entry lacks both dataset and metrics, so all are dropped. -/
theorem create_model_index_empty_mm (s : TrainingSummary)
    (h2 : _listify s.dataset_tags = []) :
    s.create_model_index [] = some [⟨s.model_name, []⟩] := by
  by_cases h1 : taskMappingOf s = []
  · exact create_model_index_of_empty s [] h1 h2
  · have hlen : ¬(taskMappingOf s).length = 0 := by
      intro hc
      exact h1 (List.length_eq_zero.mp hc)
    simp only [TrainingSummary.create_model_index, h2, List.zip_nil_left, buildDict,
      List.foldl_nil, List.length_nil]
    rw [if_neg (by simp [hlen]), if_neg hlen, if_pos trivial]
    rw [pyMapList_eq_map _
      (fun td : (Option String × Option String) × (Option String × Option String) =>
        MIEntry.mk
          (match td.1.1 with
           | some t => some ⟨td.1.2, t⟩
           | none => none) none none) ?_]
    · simp only [Option.some.injEq, List.cons.injEq, and_true]
      congr 1
      rw [List.filterMap_eq_nil_iff]
      intro e he
      rcases List.mem_map.mp he with ⟨td, _, rfl⟩
      simp [keepComplete]
    · intro td htd
      rcases List.mem_flatten.mp htd with ⟨inner, hinner, htd2⟩
      rcases List.mem_map.mp hinner with ⟨t, _, rfl⟩
      rcases List.mem_map.mp htd2 with ⟨d, hd, rfl⟩
      rcases List.mem_singleton.mp hd with rfl
      simp [buildResultEntry, metricsListOf]

/-- C4 (counterexample): for the summary with no language, no tags, no
dataset tags and no recognized metrics, the metadata mapping is not
empty — it still carries the always-inserted `model-index` key — so the
serialized block (empty exactly when the mapping is empty, spec 4.4) is
not the empty string. -/
theorem claim4_counterexample :
    bareSummary.create_metadata =
      some [("model-index", MetaVal.index [⟨"model", []⟩])] ∧
    ([("model-index", MetaVal.index [⟨"model", []⟩])] : List (String × MetaVal)) ≠ [] := by
  decide

/-- C4 (amended): for every summary whose language, tags and dataset
tags are absent and whose eval results yield no recognized metric tag,
the metadata mapping contains exactly the `model-index` key, holding the
single record with the model name and empty results; the serialized
block is therefore a non-empty delimiter block, not the empty string. -/
theorem claim4_amended_thm (s : TrainingSummary)
    (h1 : s.language = .pnone) (h2 : s.tags = .pnone) (h3 : s.dataset_tags = .pnone)
    (h4 : infer_metric_tags_from_eval_results s.eval_results = []) :
    s.create_metadata = some [("model-index", MetaVal.index [⟨s.model_name, []⟩])] := by
  simp only [TrainingSummary.create_metadata, h1, h2, h3, h4]
  rw [create_model_index_empty_mm s (by rw [h3]; rfl)]
  simp [_insert_values_as_list, dInsert]

/-- C4 (witness): the amended theorem applied to the bare summary. -/
theorem claim4_witness :
    bareSummary.create_metadata =
      some [("model-index", MetaVal.index [⟨bareSummary.model_name, []⟩])] :=
  claim4_amended_thm bareSummary rfl rfl rfl rfl

theorem dHasKey_dInsert_eq {κ α : Type} [BEq κ] [LawfulBEq κ]
    (d : List (κ × α)) (k k2 : κ) (v : α) :
    dHasKey (dInsert d k v) k2 = (k2 == k || dHasKey d k2) := by
  by_cases h : k2 = k
  · subst h
    simp [(dHasKey_dInsert_iff d k2 k2 v).mpr (Or.inl rfl)]
  · have h2 : (k2 == k) = false := by simpa using h
    rw [h2, Bool.false_or]
    cases hd : dHasKey d k2 with
    | true => exact (dHasKey_dInsert_iff d k k2 v).mpr (Or.inr hd)
    | false =>
      by_contra hne
      have hx : dHasKey (dInsert d k v) k2 = true := by
        cases hy : dHasKey (dInsert d k v) k2
        · exact absurd hy hne
        · rfl
      rcases (dHasKey_dInsert_iff d k k2 v).mp hx with h3 | h3
      · exact h h3
      · rw [hd] at h3; cases h3

theorem dHasKey_ite {κ α : Type} [BEq κ] (c : Prop) [Decidable c]
    (a b : List (κ × α)) (k : κ) :
    dHasKey (if c then a else b) k = if c then dHasKey a k else dHasKey b k :=
  apply_ite (fun d => dHasKey d k) c a b

/-- The `total_train_batch_size` key is present exactly when the
computed total differs from the stored per-device value. -/
theorem extract_total_train_key (t : Trainer) :
    dHasKey (extract_hyperparameters_from_trainer t) "total_train_batch_size" = true ↔
      t.args.train_batch_size * t.args.world_size * t.args.gradient_accumulation_steps ≠
        t.args.train_batch_size := by
  simp only [extract_hyperparameters_from_trainer, dHasKey_ite, dHasKey_dInsert_eq]
  simp only [dHasKey, List.any_cons, List.any_nil]
  simp

/-- The `total_eval_batch_size` key is present exactly when the
computed total differs from the stored per-device value. -/
theorem extract_total_eval_key (t : Trainer) :
    dHasKey (extract_hyperparameters_from_trainer t) "total_eval_batch_size" = true ↔
      t.args.eval_batch_size * t.args.world_size ≠ t.args.eval_batch_size := by
  simp only [extract_hyperparameters_from_trainer, dHasKey_ite, dHasKey_dInsert_eq]
  simp only [dHasKey, List.any_cons, List.any_nil]
  simp

/-- C6: `total_train_batch_size` appears in the extracted
hyperparameters only when `world_size * gradient_accumulation_steps` is
not 1 (and `total_eval_batch_size` only when `world_size` is not 1);
when the product is 1 the computed total equals the per-device value and
the key is omitted. -/
theorem claim6_thm (t : Trainer) :
    (dHasKey (extract_hyperparameters_from_trainer t) "total_train_batch_size" = true →
      t.args.world_size * t.args.gradient_accumulation_steps ≠ 1) ∧
    (t.args.world_size * t.args.gradient_accumulation_steps = 1 →
      t.args.train_batch_size * t.args.world_size * t.args.gradient_accumulation_steps =
        t.args.train_batch_size ∧
      dHasKey (extract_hyperparameters_from_trainer t) "total_train_batch_size" = false) ∧
    (dHasKey (extract_hyperparameters_from_trainer t) "total_eval_batch_size" = true →
      t.args.world_size ≠ 1) ∧
    (t.args.world_size = 1 →
      t.args.eval_batch_size * t.args.world_size = t.args.eval_batch_size ∧
      dHasKey (extract_hyperparameters_from_trainer t) "total_eval_batch_size" = false) := by
  have h1 := extract_total_train_key t
  have h2 := extract_total_eval_key t
  refine ⟨?_, ?_, ?_, ?_⟩
  · intro hk hprod
    apply h1.mp hk
    rw [mul_assoc, hprod, mul_one]
  · intro hprod
    have heq : t.args.train_batch_size * t.args.world_size *
        t.args.gradient_accumulation_steps = t.args.train_batch_size := by
      rw [mul_assoc, hprod, mul_one]
    refine ⟨heq, ?_⟩
    cases hx : dHasKey (extract_hyperparameters_from_trainer t) "total_train_batch_size"
    · rfl
    · exact absurd (h1.mp hx) (by simp [heq])
  · intro hk hw
    exact (h2.mp hk) (by rw [hw, mul_one])
  · intro hw
    have heq : t.args.eval_batch_size * t.args.world_size = t.args.eval_batch_size := by
      rw [hw, mul_one]
    refine ⟨heq, ?_⟩
    cases hx : dHasKey (extract_hyperparameters_from_trainer t) "total_eval_batch_size"
    · rfl
    · exact absurd (h2.mp hx) (by simp [heq])

/-- C6 (witness): the theorem applied to a two-device trainer (the key
is present, so the product is not 1) and to a single-process trainer
(product 1, key omitted). -/
theorem claim6_witness :
    sampleDistributedTrainer.args.world_size *
      sampleDistributedTrainer.args.gradient_accumulation_steps ≠ 1 ∧
    (sampleTrainer.args.train_batch_size * sampleTrainer.args.world_size *
        sampleTrainer.args.gradient_accumulation_steps =
        sampleTrainer.args.train_batch_size ∧
      dHasKey (extract_hyperparameters_from_trainer sampleTrainer)
        "total_train_batch_size" = false) ∧
    sampleDistributedTrainer.args.world_size ≠ 1 ∧
    (sampleTrainer.args.eval_batch_size * sampleTrainer.args.world_size =
        sampleTrainer.args.eval_batch_size ∧
      dHasKey (extract_hyperparameters_from_trainer sampleTrainer)
        "total_eval_batch_size" = false) :=
  ⟨(claim6_thm sampleDistributedTrainer).1 (by decide),
   (claim6_thm sampleTrainer).2.1 (by decide),
   (claim6_thm sampleDistributedTrainer).2.2.1 (by decide),
   (claim6_thm sampleTrainer).2.2.2 (by decide)⟩

/-- Every pair produced by the metric-tag fold has a recognized tag and
records the display name that produced it. -/
theorem metricTag_foldl_good (l : List (String × ℚ)) :
    ∀ acc : List (String × String),
      (∀ p ∈ acc, p.1 ∈ METRIC_TAGS ∧
        (normalizeMetricKey p.2 = p.1 ∨ (pyToLower p.2 = "rouge1" ∧ p.1 = "rouge"))) →
      ∀ p ∈ l.foldl metricTagStep acc, p.1 ∈ METRIC_TAGS ∧
        (normalizeMetricKey p.2 = p.1 ∨ (pyToLower p.2 = "rouge1" ∧ p.1 = "rouge")) := by
  induction l with
  | nil => intro acc hacc p hp; exact hacc p hp
  | cons q l ih =>
    intro acc hacc p hp
    rw [List.foldl_cons] at hp
    refine ih (metricTagStep acc q) ?_ p hp
    intro p2 hp2
    simp only [metricTagStep] at hp2
    by_cases h1 : normalizeMetricKey q.1 ∈ METRIC_TAGS
    · rw [if_pos h1] at hp2
      rcases mem_dInsert hp2 with h2 | h2
      · exact hacc p2 h2
      · subst h2
        exact ⟨h1, Or.inl rfl⟩
    · rw [if_neg h1] at hp2
      by_cases h3 : (pyToLower q.1 == "rouge1") = true
      · rw [if_pos h3] at hp2
        rcases mem_dInsert hp2 with h2 | h2
        · exact hacc p2 h2
        · subst h2
          exact ⟨(by decide : ("rouge" : String) ∈ METRIC_TAGS),
            Or.inr ⟨by simpa using h3, rfl⟩⟩
      · rw [if_neg h3] at hp2
        exact hacc p2 hp2

/-- Every pair produced by the metric-tag fold that was not already in
the accumulator has a display name drawn from the input keys. -/
theorem metricTag_foldl_src (l : List (String × ℚ)) :
    ∀ acc : List (String × String), ∀ p ∈ l.foldl metricTagStep acc,
      p ∈ acc ∨ ∃ q ∈ l, q.1 = p.2 := by
  induction l with
  | nil => intro acc p hp; exact Or.inl hp
  | cons q l ih =>
    intro acc p hp
    rw [List.foldl_cons] at hp
    rcases ih (metricTagStep acc q) p hp with h1 | h1
    · simp only [metricTagStep] at h1
      by_cases h2 : normalizeMetricKey q.1 ∈ METRIC_TAGS
      · rw [if_pos h2] at h1
        rcases mem_dInsert h1 with h3 | h3
        · exact Or.inl h3
        · subst h3
          exact Or.inr ⟨q, List.mem_cons_self q l, rfl⟩
      · rw [if_neg h2] at h1
        by_cases h4 : (pyToLower q.1 == "rouge1") = true
        · rw [if_pos h4] at h1
          rcases mem_dInsert h1 with h3 | h3
          · exact Or.inl h3
          · subst h3
            exact Or.inr ⟨q, List.mem_cons_self q l, rfl⟩
        · rw [if_neg h4] at h1
          exact Or.inl h1
    · rcases h1 with ⟨q2, hq2, hq3⟩
      exact Or.inr ⟨q2, List.mem_cons_of_mem _ hq2, hq3⟩

/-- C7: the inferred metric tags are drawn from the fixed `METRIC_TAGS`
set; each output pair comes from an input display name that is
recognized (normalized form in the set, or lower-cased equal to
`rouge1`, mapped to the `rouge` tag); unrecognized names never appear. -/
theorem claim7_thm (eval_results : List (String × ℚ)) :
    (∀ p ∈ infer_metric_tags_from_eval_results (some eval_results),
      p.1 ∈ METRIC_TAGS ∧
      (∃ q ∈ eval_results, q.1 = p.2) ∧
      (normalizeMetricKey p.2 = p.1 ∨ (pyToLower p.2 = "rouge1" ∧ p.1 = "rouge"))) ∧
    (∀ q ∈ eval_results,
      normalizeMetricKey q.1 ∉ METRIC_TAGS → pyToLower q.1 ≠ "rouge1" →
      ∀ p ∈ infer_metric_tags_from_eval_results (some eval_results), p.2 ≠ q.1) := by
  have hgood := metricTag_foldl_good eval_results [] (by intro p hp; cases hp)
  have hsrc := metricTag_foldl_src eval_results []
  constructor
  · intro p hp
    simp only [infer_metric_tags_from_eval_results] at hp
    rcases hsrc p hp with h1 | h1
    · cases h1
    · exact ⟨(hgood p hp).1, h1, (hgood p hp).2⟩
  · intro q hq hq1 hq2 p hp heq
    simp only [infer_metric_tags_from_eval_results] at hp
    rcases (hgood p hp).2 with h3 | h3
    · rw [heq] at h3
      rw [h3] at hq1
      exact hq1 (hgood p hp).1
    · rw [heq] at h3
      exact hq2 h3.1

/-- C7 (witness): the theorem applied to a two-entry mapping with one
recognized and one unrecognized name. -/
theorem claim7_witness :
    "accuracy" ∈ METRIC_TAGS ∧
    (∃ q ∈ [("Accuracy", (1 : ℚ)), ("weird", 2)], q.1 = "Accuracy") ∧
    (normalizeMetricKey "Accuracy" = "accuracy" ∨
      (pyToLower "Accuracy" = "rouge1" ∧ "accuracy" = "rouge")) :=
  (claim7_thm [("Accuracy", 1), ("weird", 2)]).1 ("accuracy", "Accuracy") (by decide)

theorem updateWidth_some {ws : List (String × ℕ)} {k : String} (n : ℕ)
    (h : k ∈ ws.map Prod.fst) :
    ∃ ws2, updateWidth ws k n = some ws2 ∧ ws2.map Prod.fst = ws.map Prod.fst := by
  induction ws with
  | nil => cases h
  | cons p rest ih =>
    simp only [updateWidth]
    by_cases hp : (p.1 == k) = true
    · rw [if_pos hp]
      exact ⟨_, rfl, by simp⟩
    · rw [if_neg hp]
      have hk : k ∈ rest.map Prod.fst := by
        rw [List.map_cons, List.mem_cons] at h
        rcases h with h1 | h1
        · exact absurd (by simp [h1]) hp
        · exact h1
      rcases ih hk with ⟨ws2, hws2, hkeys⟩
      rw [hws2]
      exact ⟨p :: ws2, rfl, by simp [hkeys]⟩

theorem lineWidths_some {line : Record} :
    ∀ {ws : List (String × ℕ)},
      (∀ p ∈ line, p.1 ∈ ws.map Prod.fst) →
      ∃ ws2, lineWidths ws line = some ws2 ∧ ws2.map Prod.fst = ws.map Prod.fst := by
  induction line with
  | nil => intro ws _; exact ⟨ws, rfl, rfl⟩
  | cons p rest ih =>
    intro ws h
    rcases updateWidth_some (_maybe_round p.2).length (h p (List.mem_cons_self p rest)) with
      ⟨ws1, hws1, hkeys1⟩
    simp only [lineWidths, hws1]
    have h2 : ∀ q ∈ rest, q.1 ∈ ws1.map Prod.fst := by
      intro q hq
      rw [hkeys1]
      exact h q (List.mem_cons_of_mem _ hq)
    rcases ih h2 with ⟨ws2, hws2, hkeys2⟩
    exact ⟨ws2, hws2, hkeys2.trans hkeys1⟩

theorem computeWidths_some {lines : List Record} :
    ∀ {ws : List (String × ℕ)},
      (∀ line ∈ lines, ∀ p ∈ line, p.1 ∈ ws.map Prod.fst) →
      ∃ ws2, computeWidths ws lines = some ws2 ∧ ws2.map Prod.fst = ws.map Prod.fst := by
  induction lines with
  | nil => intro ws _; exact ⟨ws, rfl, rfl⟩
  | cons line rest ih =>
    intro ws h
    rcases lineWidths_some (h line (List.mem_cons_self _ _)) with ⟨ws1, hws1, hkeys1⟩
    simp only [computeWidths, hws1]
    have h2 : ∀ l2 ∈ rest, ∀ p ∈ l2, p.1 ∈ ws1.map Prod.fst := by
      intro l2 hl2 p hp
      rw [hkeys1]
      exact h l2 (List.mem_cons_of_mem _ hl2) p hp
    rcases ih h2 with ⟨ws2, hws2, hkeys2⟩
    exact ⟨ws2, hws2, hkeys2.trans hkeys1⟩

/-- C10: `make_markdown_table` returns the empty string for a `None` or
empty row sequence without raising, and for a non-empty uniform-keyed
input it returns a table headed by the first row's keys. -/
theorem claim10_thm :
    make_markdown_table none = some "" ∧
    make_markdown_table (some []) = some "" ∧
    ∀ (l0 : Record) (rest : List Record),
      (∀ line ∈ l0 :: rest, line.map Prod.fst = l0.map Prod.fst) →
      ∃ widths body,
        make_markdown_table (some (l0 :: rest)) =
          some (_regular_table_line (l0.map Prod.fst) widths ++
            _second_table_line widths ++ body) := by
  refine ⟨rfl, rfl, ?_⟩
  intro l0 rest h
  have hkeys : ∀ line ∈ l0 :: rest, ∀ p ∈ line,
      p.1 ∈ (l0.map (fun p => (p.1, p.1.length))).map Prod.fst := by
    intro line hline p hp
    have h2 : (l0.map (fun p => (p.1, p.1.length))).map Prod.fst = l0.map Prod.fst := by
      simp
    rw [h2, ← h line hline]
    exact List.mem_map.mpr ⟨p, hp, rfl⟩
  rcases computeWidths_some hkeys with ⟨ws2, hws2, _⟩
  exact ⟨ws2.map (fun p => p.2),
    String.join ((l0 :: rest).map (fun line =>
      _regular_table_line (line.map (fun p => _maybe_round p.2)) (ws2.map (fun p => p.2)))),
    by simp only [make_markdown_table, hws2]⟩

/-- C10 (witness): the theorem applied to a single-row, single-column
table. -/
theorem claim10_witness :
    ∃ widths body,
      make_markdown_table (some [[("A", LogVal.int 1)]]) =
        some (_regular_table_line ([(("A" : String), LogVal.int 1)].map Prod.fst) widths ++
          _second_table_line widths ++ body) :=
  claim10_thm.2.2 [("A", LogVal.int 1)] [] (by decide)

end Modelcard
